import Mathlib

/-!
Verification of the worktree-orchestration native module (`worktrunk-native`).

The development shallowly embeds the Rust sources:
  * `src/config.rs`   — `PathTemplate` and its `render` (Rust `str::replace`
    is modelled character-exactly by `replaceFuel` below);
  * `src/error.rs`    — the `WorktreeError` taxonomy, its `Display` strings and
    the conversion to the host (`napi`) error format `"[<CODE>] <message>"`;
  * `src/lib.rs`      — the clone pipeline: the `f64` percent computation
    (modelled bit-exactly by `percentF64` via round-to-nearest-even at 53 bits
    of precision), the 100 ms / percent-advance rate limiter (`stepTick`), and
    the error construction of `clone_repository`;
  * `src/worktree.rs` — `ensure_repo_ready`, `ensure_worktree`,
    `find_worktree_for_branch`, `list_worktrees`, `remove_worktree`.

Calls into the version-control library (libgit2 via the `git2` crate) are
outside the repository; they are represented by oracle fields of `RepoState`
and `WtEntry` recording the outcome each call would report.  Where the effect
of a library call matters (worktree registration, the HEAD query in the
detached/unborn cases) it is modelled from the specification and marked
`Modelled from the spec:` in the doc comment.
-/

set_option maxRecDepth 100000

deriving instance DecidableEq for Except

/-! ## Character-list utilities (Rust `str` operations) -/

/-- `leadsWith p s` is true when the character list `p` is an initial segment
of `s` (the prefix test used when scanning for a pattern occurrence). -/
def leadsWith : List Char → List Char → Bool
  | [], _ => true
  | _ :: _, [] => false
  | a :: as, b :: bs => a == b && leadsWith as bs

/-- `hasMatch p s` is true when `p` occurs as a contiguous substring of `s`
starting at some position. -/
def hasMatch (p : List Char) : List Char → Bool
  | [] => leadsWith p []
  | c :: cs => leadsWith p (c :: cs) || hasMatch p cs

/-- Left-to-right, non-overlapping replacement of every occurrence of `pat`
by `rep`, with explicit fuel (the fuel is always instantiated with the length
of the scanned list, which suffices for non-empty patterns).  This is the
semantics of Rust `str::replace` for a non-empty pattern: after a match the
scan resumes after the matched text and the replacement is not rescanned. -/
def replaceFuel (pat rep : List Char) : ℕ → List Char → List Char
  | _, [] => []
  | 0, s => s
  | fuel + 1, c :: cs =>
    match leadsWith pat (c :: cs) with
    | true => rep ++ replaceFuel pat rep fuel ((c :: cs).drop pat.length)
    | false => c :: replaceFuel pat rep fuel cs

/-- Rust `str::replace` with an empty pattern: the replacement is inserted at
every character boundary, including both ends. -/
def interleave (rep : List Char) : List Char → List Char
  | [] => rep
  | c :: cs => rep ++ c :: interleave rep cs

/-- Rust `String::replace(self, pat, rep)`. -/
def strReplace (s pat rep : String) : String :=
  if pat.data = [] then ⟨interleave rep.data s.data⟩
  else ⟨replaceFuel pat.data rep.data s.data.length s.data⟩

/-- `sanitize_worktree_name` from `worktree.rs`: replace every `/` in the
branch name with `-`. -/
def sanitizeWorktreeName (branch : String) : String :=
  strReplace branch "/" "-"

/-- The trailing-separator stripping of `list_worktrees` (`worktree.rs`): if
the working-directory path ends in `/`, remove all trailing `/` characters
(`trim_end_matches('/')`); a path without a trailing `/` is unchanged, which
coincides with unconditional stripping. -/
def stripTrailingSlashes (s : String) : String :=
  ⟨(s.data.reverse.dropWhile (fun c => c == '/')).reverse⟩

/-- `msgHasCode code msg` is true when `msg` is of the host error shape
`"[<code>] <rest>"`, i.e. begins with the literal `"[" ++ code ++ "] "`. -/
def msgHasCode (code msg : String) : Bool :=
  leadsWith ("[" ++ code ++ "] ").data msg.data

/-! ## `config.rs`: the path-template renderer -/

/-- `PathTemplate` from `config.rs`. -/
structure PathTemplate where
  template : String
deriving DecidableEq

/-- `PathTemplate::render` from `config.rs`: three sequential textual
replacements.  Filesystem paths are modelled by their string form
(`to_str().unwrap_or("")` on a path built from a string returns the string
itself). -/
def PathTemplate.render (pt : PathTemplate) (repoRoot baseDir branch : String) : String :=
  strReplace (strReplace (strReplace pt.template "{repoRoot}" repoRoot)
    "{worktreeBaseDir}" baseDir) "{branch}" branch

/-- `PathTemplate::default` from `config.rs`. -/
def PathTemplate.default : PathTemplate :=
  ⟨"{worktreeBaseDir}/{branch}"⟩

/-! ## `error.rs`: the error taxonomy -/

/-- `WorktreeError` from `error.rs`. -/
inductive WorktreeError where
  | notAGitRepo (msg : String)
  | worktreeCreateFailed (msg : String)
  | worktreeNotFound (msg : String)
  | worktreeRemoveFailed (msg : String)
  | worktreeInUse (msg : String)
  | invalidPath (msg : String)
  | gitError (msg : String)
  | ioError (msg : String)
deriving DecidableEq

/-- The stable code token attached by `From<WorktreeError> for napi::Error`. -/
def errCode : WorktreeError → String
  | .notAGitRepo _ => "NOT_A_GIT_REPO"
  | .worktreeCreateFailed _ => "WORKTREE_CREATE_FAILED"
  | .worktreeNotFound _ => "WORKTREE_NOT_FOUND"
  | .worktreeRemoveFailed _ => "WORKTREE_REMOVE_FAILED"
  | .worktreeInUse _ => "WORKTREE_IN_USE"
  | .invalidPath _ => "INVALID_PATH"
  | .gitError _ => "GIT_ERROR"
  | .ioError _ => "IO_ERROR"

/-- The `Display` strings generated by the `#[error(...)]` attributes. -/
def errDisplay : WorktreeError → String
  | .notAGitRepo m => "Not a git repository: " ++ m
  | .worktreeCreateFailed m => "Failed to create worktree: " ++ m
  | .worktreeNotFound m => "Worktree not found: " ++ m
  | .worktreeRemoveFailed m => "Failed to remove worktree: " ++ m
  | .worktreeInUse m => "Worktree is currently in use: " ++ m
  | .invalidPath m => "Invalid path: " ++ m
  | .gitError m => "Git error: " ++ m
  | .ioError m => "I/O error: " ++ m

/-- The host (`napi`) error: a status and a message string. -/
structure NapiError where
  status : String
  message : String
deriving DecidableEq

/-- `From<WorktreeError> for napi::Error` in `error.rs`: a generic failure
whose message is `"[<CODE>] <display>"`. -/
def worktreeErrorToNapi (e : WorktreeError) : NapiError :=
  ⟨"GenericFailure", "[" ++ errCode e ++ "] " ++ errDisplay e⟩

/-! ## IEEE-754 double-precision model for the percent computation

`lib.rs` computes
`((received as f64 / total as f64) * 100.0) as u32`.
Nonnegative exact rationals are represented as numerator/denominator pairs of
naturals; `rnd53Q` is IEEE-754 round-to-nearest, ties-to-even, at 53 bits of
significand (the rounding every `f64` conversion, division and multiplication
performs; exponents stay far inside the normal range here, so neither
subnormals nor overflow arise). -/

/-- Fuel-driven `⌊log₂ n⌋` (0 for `n = 0`); fuel `n` suffices. -/
def natLog2F : ℕ → ℕ → ℕ
  | 0, _ => 0
  | f + 1, n => if 2 ≤ n then natLog2F f (n / 2) + 1 else 0

/-- `⌊log₂ n⌋` for positive `n` (0 for `n = 0`). -/
def natLog2 (n : ℕ) : ℕ := natLog2F n n

/-- A nonnegative exact rational: numerator and (positive) denominator. -/
abbrev PosQ := ℕ × ℕ

/-- `⌊log₂ (a.1 / a.2)⌋` for a positive exact rational. -/
def floorLog2Q (a : PosQ) : ℤ :=
  let g : ℤ := (natLog2 a.1 : ℤ) - (natLog2 a.2 : ℤ)
  if 0 ≤ g then (if a.2 * 2 ^ g.toNat ≤ a.1 then g else g - 1)
  else (if a.2 ≤ a.1 * 2 ^ (-g).toNat then g else g - 1)

/-- Round the exact quotient `a / b` to the nearest integer, ties to even. -/
def rneDiv (a b : ℕ) : ℕ :=
  let q := a / b
  let r := a % b
  if 2 * r < b then q
  else if b < 2 * r then q + 1
  else if q % 2 = 0 then q else q + 1

/-- Round a nonnegative exact rational to the nearest `f64` value
(round to nearest, ties to even, 53-bit significand). -/
def rnd53Q (a : PosQ) : PosQ :=
  if a.1 = 0 then (0, 1)
  else
    let e : ℤ := floorLog2Q a - 52
    if 0 ≤ e then (rneDiv a.1 (a.2 * 2 ^ e.toNat) * 2 ^ e.toNat, 1)
    else (rneDiv (a.1 * 2 ^ (-e).toNat) a.2, 2 ^ (-e).toNat)

/-- The percent computation of the clone progress callback (`lib.rs`):
`((received as f64 / total as f64) * 100.0) as u32` when `total > 0`, else
`0`.  Each `as f64` conversion, the division and the multiplication are
correctly rounded; the final `as u32` truncates toward zero and saturates. -/
def percentF64 (received total : ℕ) : ℕ :=
  if 0 < total then
    let rv := rnd53Q (received, 1)
    let tv := rnd53Q (total, 1)
    let q := rnd53Q (rv.1 * tv.2, rv.2 * tv.1)
    let p := rnd53Q (q.1 * 100, q.2)
    min (p.1 / p.2) (2 ^ 32 - 1)
  else 0

/-! ## `lib.rs`: the clone pipeline -/

/-- The `CloneProgress` record forwarded to the host (`lib.rs`); the
received/total counters are `usize` values cast with `as u32`. -/
structure CloneProgress where
  phase : String
  current : ℕ
  total : ℕ
  percent : ℕ
deriving DecidableEq

/-- The rate-limiting state of the transfer-progress callback:
`last_emit : Mutex<Instant>` (milliseconds of the last emission) and
`last_percent : Mutex<u32>`. -/
structure RateState where
  lastEmit : ℕ
  lastPercent : ℕ
deriving DecidableEq

/-- One transfer-progress tick: the current time in milliseconds (the clock
is monotone, so `now - lastEmit` is the `elapsed()` duration) and the
libgit2 progress counters. -/
structure TransferTick where
  now : ℕ
  receivedObjects : ℕ
  totalObjects : ℕ
  indexedDeltas : ℕ
  totalDeltas : ℕ
deriving DecidableEq

/-- The phase classification of a tick (`lib.rs`). -/
def tickPhase (t : TransferTick) : String :=
  if t.receivedObjects < t.totalObjects then "receiving"
  else if t.indexedDeltas < t.totalDeltas then "resolving"
  else "done"

/-- One execution of the transfer-progress callback (`lib.rs`): compute the
percent, emit when at least 100 ms have elapsed since the last emission or
the percent strictly exceeds the last emitted percent, updating both pieces
of tracking state; otherwise drop the tick and leave the state unchanged. -/
def stepTick (s : RateState) (t : TransferTick) : RateState × Option CloneProgress :=
  let percent := percentF64 t.receivedObjects t.totalObjects
  if 100 ≤ t.now - s.lastEmit ∨ s.lastPercent < percent then
    ({ lastEmit := t.now, lastPercent := percent },
      some { phase := tickPhase t, current := t.receivedObjects % 2 ^ 32,
             total := t.totalObjects % 2 ^ 32, percent := percent })
  else (s, none)

/-- The outcome of the library calls made by `clone_repository` after the
fetch options are configured: the clone routine (`some msg` = failure with
that library message) and the working directory the cloned repository
reports. -/
structure CloneOutcome where
  cloneErr : Option String
  workdirPath : Option String
deriving DecidableEq

/-- The result `clone_repository` (`lib.rs`) hands to the host: a clone
failure becomes a plain generic error `"Clone failed: <msg>"`, a missing
working directory becomes a plain generic error `"No workdir"`; neither is
routed through the `WorktreeError` taxonomy. -/
def clone_repository_result (oc : CloneOutcome) : Except NapiError String :=
  match oc.cloneErr with
  | some e => .error ⟨"GenericFailure", "Clone failed: " ++ e⟩
  | none =>
    match oc.workdirPath with
    | none => .error ⟨"GenericFailure", "No workdir"⟩
    | some w => .ok w

/-! ## `worktree.rs`: the orchestrator

The on-disk repository and the library's view of it are captured by
`RepoState`; every fallible library call is given an oracle field recording
the outcome it would report (`none` = success for the `Option String` error
oracles, carrying the library message on failure). -/

/-- A worktree-registry entry as the orchestrator observes it:
  * `name` — the registry name (`worktrees()` enumeration);
  * `findOk` — whether `repo.find_worktree(name)` succeeds;
  * `headBranch` — `some b` when `Repository::open_from_worktree`, `head()`
    and `shorthand()` all succeed yielding `b`; `none` when any of them
    fails;
  * `path` — `worktree.path()`;
  * `lockQueryOk` — whether the advisory-lock query `worktree.is_locked()`
    returns `Ok`;
  * `lockState` — the lock state the library reports when the query
    succeeds;
  * `pruneRes` — outcome of `worktree.prune` with the allow-valid option
    (`none` = success). -/
structure WtEntry where
  name : String
  findOk : Bool
  headBranch : Option String
  path : String
  lockQueryOk : Bool
  lockState : Bool
  pruneRes : Option String
deriving DecidableEq

/-- The repository state and library-call oracles for one operation.
`branches` is the set of local branches (branch names are unique within a
repository, so a list without duplicates; deletion removes the branch).
`deleteFails` lists branches whose `Branch::delete` would fail.
`worktreeDirs` tracks the worktree directories existing on disk. -/
structure RepoState where
  pathExists : Bool
  openOk : Bool
  headShort : Option (Option String)
  headErr : String
  workdir : Option String
  worktreesErr : Option String
  entries : List WtEntry
  branches : List String
  deleteFails : List String
  worktreeDirs : List String
  mkdirErr : Option String
  peelErr : Option String
  refCreateErr : Option String
  addErr : Option String
deriving DecidableEq

/-- `ensure_repo_ready` from `worktree.rs`: `InvalidPath` when the root does
not exist, `NotAGitRepo` when it cannot be opened, otherwise
`(true, head().ok().and_then(shorthand))`. -/
def ensure_repo_ready (root : String) (st : RepoState) :
    Except WorktreeError (Bool × Option String) :=
  if st.pathExists then
    if st.openOk then .ok (true, st.headShort.bind id)
    else .error (.notAGitRepo ("Not a git repository: " ++ root))
  else .error (.invalidPath ("Path does not exist: " ++ root))

/-- The libgit2 HEAD states distinguished by the specification. -/
inductive HeadState where
  | onBranch (b : String)
  | detached
  | unborn

/-- Modelled from the spec: the outcome of the library's `head()` +
`shorthand()` query, which is not part of this repository.  Spec section
4.3.1: "The detached-HEAD case and the unborn-HEAD case both yield
`default_branch = None` without failing" — on an unborn HEAD the `head()`
query fails, on a detached HEAD it succeeds without yielding a branch short
name; on a born, attached HEAD it yields the branch's short name. -/
def headQuery : HeadState → Option (Option String)
  | .onBranch b => some (some b)
  | .detached => some none
  | .unborn => none

/-- `find_worktree_for_branch` from `worktree.rs`: scan the registry in
order; an entry counts when `find_worktree` succeeds and the worktree's HEAD
short name equals `branch`; entries failing any query are skipped. -/
def findWorktreeForBranch (entries : List WtEntry) (branch : String) : Option String :=
  match entries with
  | [] => none
  | e :: rest =>
    if e.findOk ∧ e.headBranch = some branch then some e.path
    else findWorktreeForBranch rest branch

/-- The new-branch reference creation of `ensure_worktree`
(`repo.reference("refs/heads/<branch>", head, false, ...)`). -/
def addBranch (st : RepoState) (branch : String) : RepoState :=
  { st with branches := st.branches ++ [branch] }

/-- Modelled from the spec: the effect of the library's worktree
registration (`repo.worktree(name, path, opts)`), which is not part of this
repository.  Per spec section 4.3.2 step 4, registration under the sanitized
name checks out the branch `branch` (directly for an existing branch, via
the freshly created reference otherwise) and creates the worktree directory
at `path`. -/
def addWorktree (st : RepoState) (branch path : String) : RepoState :=
  { st with
    entries := st.entries ++
      [⟨sanitizeWorktreeName branch, true, some branch, path, true, false, none⟩],
    worktreeDirs := st.worktreeDirs ++ [path] }

/-- `ensure_worktree` from `worktree.rs`.  On success the returned value is
the post-state together with the `(branch, worktree_path)` pair. -/
def ensure_worktree (st : RepoState) (root branch baseDir : String)
    (tmpl : Option String) : Except WorktreeError (RepoState × String × String) :=
  if st.openOk then
    match st.worktreesErr with
    | some m => .error (.gitError ("Failed to list worktrees: " ++ m))
    | none =>
      match findWorktreeForBranch st.entries branch with
      | some p => .ok (st, branch, p)
      | none =>
        let tpl := match tmpl with
          | some t => PathTemplate.mk t
          | none => PathTemplate.default
        let path := tpl.render root baseDir branch
        match st.mkdirErr with
        | some m => .error (.ioError m)
        | none =>
          if branch ∈ st.branches then
            match st.addErr with
            | some m =>
              .error (.worktreeCreateFailed
                ("Failed to create worktree for existing branch " ++ branch ++ ": " ++ m))
            | none => .ok (addWorktree st branch path, branch, path)
          else
            match st.headShort with
            | none => .error (.gitError ("Failed to get HEAD: " ++ st.headErr))
            | some _ =>
              match st.peelErr with
              | some m => .error (.gitError ("Failed to get HEAD commit: " ++ m))
              | none =>
                match st.refCreateErr with
                | some m =>
                  .error (.worktreeCreateFailed
                    ("Failed to create branch " ++ branch ++ ": " ++ m))
                | none =>
                  match st.addErr with
                  | some m =>
                    .error (.worktreeCreateFailed
                      ("Failed to create worktree with new branch " ++ branch ++ ": " ++ m))
                  | none => .ok (addWorktree (addBranch st branch) branch path, branch, path)
  else .error (.notAGitRepo ("Not a git repository: " ++ root))

/-- The `WorktreeInfo` record of `worktree.rs`. -/
structure WorktreeInfo where
  branch : String
  path : String
  is_main : Bool
  is_locked : Bool
deriving DecidableEq

/-- The record `list_worktrees` emits for a linked registry entry (skipped
when `find_worktree` fails): the branch is the worktree's HEAD short name,
falling back to the registry name; `is_locked` is the code's
`worktree.is_locked().is_ok()` — true exactly when the lock query
succeeds. -/
def linkedRecord (e : WtEntry) : Option WorktreeInfo :=
  if e.findOk then some ⟨e.headBranch.getD e.name, e.path, false, e.lockQueryOk⟩
  else none

/-- `list_worktrees` from `worktree.rs`: a main record when HEAD resolves to
a short name (path = working directory, falling back to the root, trailing
`/` stripped, `is_locked = false`), then one record per linked registry
entry. -/
def list_worktrees (root : String) (st : RepoState) :
    Except WorktreeError (List WorktreeInfo) :=
  if st.openOk then
    let mainRecs : List WorktreeInfo :=
      match st.headShort with
      | some (some name) =>
        [⟨name, stripTrailingSlashes (st.workdir.getD root), true, false⟩]
      | _ => []
    match st.worktreesErr with
    | some m => .error (.gitError ("Failed to list worktrees: " ++ m))
    | none => .ok (mainRecs ++ st.entries.filterMap linkedRecord)
  else .error (.notAGitRepo ("Not a git repository: " ++ root))

/-- The registry scan of `remove_worktree`: `acc` holds the already-skipped
entries in reverse.  On the first entry whose worktree is findable and whose
HEAD short name equals `branch`, prune it (failure → `WorktreeRemoveFailed`),
then best-effort delete the local branch (`let _ = branch.delete()`), and
return the post-state. -/
def removeGo (st : RepoState) (branch : String) :
    List WtEntry → List WtEntry → Except WorktreeError RepoState
  | [], _ => .error (.worktreeNotFound ("No worktree found for branch " ++ branch))
  | e :: rest, acc =>
    if e.findOk ∧ e.headBranch = some branch then
      match e.pruneRes with
      | some m =>
        .error (.worktreeRemoveFailed
          ("Failed to remove worktree for branch " ++ branch ++ ": " ++ m))
      | none =>
        .ok { st with
          entries := acc.reverse ++ rest,
          worktreeDirs := st.worktreeDirs.filter (fun p => p ≠ e.path),
          branches :=
            if branch ∈ st.branches ∧ branch ∉ st.deleteFails
            then st.branches.filter (fun b => b ≠ branch)
            else st.branches }
    else removeGo st branch rest (e :: acc)

/-- `remove_worktree` from `worktree.rs`. -/
def remove_worktree (st : RepoState) (root branch : String) :
    Except WorktreeError RepoState :=
  if st.openOk then
    match st.worktreesErr with
    | some m => .error (.gitError ("Failed to list worktrees: " ++ m))
    | none => removeGo st branch st.entries []
  else .error (.notAGitRepo ("Not a git repository: " ++ root))

/-- The lock flag as the specification's words describe it (spec sections
4.3.3 and 9): the reported lock state when the query succeeds, and `true`
when the query itself fails.  Stated for comparison with the code's
behaviour. -/
def specLockFlag (e : WtEntry) : Bool :=
  if e.lockQueryOk then e.lockState else true

/-! ## `lib.rs`: the host-facing `ensure_repo_ready` result record -/

/-- `EnsureRepoReadyResult` from `lib.rs`: the record delivered to the host. -/
structure EnsureRepoReadyResult where
  is_git_repo : Bool
  default_branch : Option String
  remote_url : Option String
deriving DecidableEq

/-! ## Concrete states used by the witnesses and counterexamples -/

def baseState : RepoState :=
  { pathExists := true, openOk := true, headShort := some (some "main"),
    headErr := "", workdir := some "/repo/", worktreesErr := none,
    entries := [], branches := ["main"], deleteFails := [], worktreeDirs := [],
    mkdirErr := none, peelErr := none, refCreateErr := none, addErr := none }

def unlockedEntry : WtEntry := ⟨"b", true, some "b", "/p", true, false, none⟩

def c1State : RepoState :=
  { baseState with headShort := some none, entries := [unlockedEntry] }

def c2FailState : RepoState :=
  { baseState with entries := [unlockedEntry], branches := ["b"], deleteFails := ["b"] }

def c2OkState : RepoState :=
  { baseState with entries := [unlockedEntry], branches := ["b"] }

def c2OkResult : RepoState := { baseState with branches := ([] : List String) }

def c3After : RepoState :=
  { baseState with
    entries := [⟨"feat-x", true, some "feat/x", "/repo/.wt/feat/x", true, false, none⟩],
    branches := ["main", "feat/x"],
    worktreeDirs := ["/repo/.wt/feat/x"] }

def c7Detached : RepoState := { baseState with headShort := some none }

/-! ## Structural lemmas about the replacement scan and the orchestrator -/

theorem replaceFuel_fuel_irrel (pat rep : List Char) (hp : pat ≠ []) :
    ∀ fuel fuel' s, s.length ≤ fuel → s.length ≤ fuel' →
      replaceFuel pat rep fuel s = replaceFuel pat rep fuel' s := by
  intro fuel
  induction fuel with
  | zero =>
    intro fuel' s hs _
    have hnil : s = [] := List.eq_nil_of_length_eq_zero (Nat.le_zero.mp hs)
    subst hnil
    cases fuel' <;> rfl
  | succ f ih =>
    intro fuel' s hs hs'
    cases s with
    | nil => cases fuel' <;> rfl
    | cons c cs =>
      cases fuel' with
      | zero => simp at hs'
      | succ f' =>
        have hplen : 1 ≤ pat.length := List.length_pos.mpr hp
        simp only [List.length_cons] at hs hs'
        cases h : leadsWith pat (c :: cs) with
        | true =>
          have hln : ((c :: cs).drop pat.length).length ≤ f := by
            simp only [List.length_drop, List.length_cons]; omega
          have hln' : ((c :: cs).drop pat.length).length ≤ f' := by
            simp only [List.length_drop, List.length_cons]; omega
          simp only [replaceFuel, h]
          rw [ih f' _ hln hln']
        | false =>
          have hln : cs.length ≤ f := by omega
          have hln' : cs.length ≤ f' := by omega
          simp only [replaceFuel, h]
          rw [ih f' _ hln hln']

theorem replaceFuel_no_match (pat rep : List Char) :
    ∀ fuel s, hasMatch pat s = false → replaceFuel pat rep fuel s = s := by
  intro fuel
  induction fuel with
  | zero => intro s _; cases s <;> rfl
  | succ f ih =>
    intro s hm
    cases s with
    | nil => rfl
    | cons c cs =>
      simp only [hasMatch, Bool.or_eq_false_iff] at hm
      simp only [replaceFuel, hm.1]
      rw [ih cs hm.2]

theorem leadsWith_self_append (p t : List Char) : leadsWith p (p ++ t) = true := by
  induction p with
  | nil => rfl
  | cons a as ih => simp [leadsWith, ih]

theorem replaceFuel_head (pat rep s : List Char) (hp : pat ≠ []) :
    replaceFuel pat rep (pat ++ s).length (pat ++ s) =
      rep ++ replaceFuel pat rep s.length s := by
  obtain ⟨a, as, rfl⟩ : ∃ a as, pat = a :: as := by
    cases pat with
    | nil => exact absurd rfl hp
    | cons a as => exact ⟨a, as, rfl⟩
  have hlw : leadsWith (a :: as) ((a :: as) ++ s) = true := leadsWith_self_append _ _
  have hlen : ((a :: as) ++ s).length = (as ++ s).length + 1 := by simp
  rw [hlen, List.cons_append]
  simp only [replaceFuel]
  rw [← List.cons_append, hlw]
  simp only []
  rw [List.drop_left]
  exact congrArg (fun l => rep ++ l)
    (replaceFuel_fuel_irrel (a :: as) rep hp (as ++ s).length s.length s
      (by simp [List.length_append]) (Nat.le_refl _))

theorem replaceFuel_append_no_match (pat rep : List Char) :
    ∀ a s, (∀ i, i < a.length → leadsWith pat ((a ++ s).drop i) = false) →
      replaceFuel pat rep (a ++ s).length (a ++ s) =
        a ++ replaceFuel pat rep s.length s := by
  intro a
  induction a with
  | nil => intro s _; simp
  | cons c a' ih =>
    intro s h
    have h0 : leadsWith pat (c :: (a' ++ s)) = false := by
      have := h 0 (by simp)
      simpa using this
    have hrest : ∀ i, i < a'.length → leadsWith pat ((a' ++ s).drop i) = false := by
      intro i hi
      have := h (i + 1) (by simp; omega)
      simpa using this
    rw [List.cons_append]
    simp only [List.length_cons, replaceFuel, h0]
    rw [ih s hrest, List.cons_append]

theorem leadsWith_of_long (pat : List Char) :
    ∀ x s, leadsWith pat (x ++ s) = true → pat.length ≤ x.length →
      leadsWith pat x = true := by
  induction pat with
  | nil => intro x s _ _; rfl
  | cons p ps ih =>
    intro x s h hl
    cases x with
    | nil => simp at hl
    | cons y ys =>
      simp only [List.cons_append, leadsWith, Bool.and_eq_true] at h
      simp only [List.length_cons] at hl
      simp only [leadsWith, Bool.and_eq_true]
      exact ⟨h.1, ih ys s h.2 (by omega)⟩

theorem mem_pat_of_leadsWith_short (pat : List Char) :
    ∀ x s, leadsWith pat (x ++ s) = true → x.length ≤ pat.length →
      ∀ c ∈ x, c ∈ pat := by
  induction pat with
  | nil =>
    intro x s _ hl c hc
    have : x = [] := List.eq_nil_of_length_eq_zero (Nat.le_zero.mp hl)
    subst this
    simp at hc
  | cons p ps ih =>
    intro x s h hl c hc
    cases x with
    | nil => simp at hc
    | cons y ys =>
      simp only [List.cons_append, leadsWith, Bool.and_eq_true, beq_iff_eq] at h
      simp only [List.length_cons] at hl
      rcases List.mem_cons.mp hc with hcy | hcys
      · subst hcy
        rw [h.1]
        exact List.mem_cons_self _ _
      · exact List.mem_cons_of_mem _ (ih ys s h.2 (by omega) c hcys)

theorem hasMatch_of_drop (pat : List Char) :
    ∀ a i, i < a.length → leadsWith pat (a.drop i) = true → hasMatch pat a = true := by
  intro a
  induction a with
  | nil => intro i hi; simp at hi
  | cons c cs ih =>
    intro i hi h
    cases i with
    | zero =>
      simp only [List.drop_zero] at h
      simp [hasMatch, h]
    | succ j =>
      simp only [List.drop_succ_cons] at h
      simp only [List.length_cons] at hi
      have := ih j (by omega) h
      simp [hasMatch, this]

theorem mem_drop_concat (b : List Char) (e : Char) :
    ∀ i, i < (b ++ [e]).length → e ∈ (b ++ [e]).drop i := by
  induction b with
  | nil =>
    intro i hi
    simp at hi
    subst hi
    simp
  | cons c b' ih =>
    intro i hi
    cases i with
    | zero => simp
    | succ j =>
      simp only [List.cons_append, List.drop_succ_cons]
      simp only [List.cons_append, List.length_cons] at hi
      exact ih j (by omega)

theorem no_start_in_base (b s : List Char)
    (h : hasMatch "{branch}".data (b ++ ['/']) = false) :
    ∀ i, i < (b ++ ['/']).length →
      leadsWith "{branch}".data (((b ++ ['/']) ++ s).drop i) = false := by
  intro i hi
  by_contra hc
  have hlw : leadsWith "{branch}".data (((b ++ ['/']) ++ s).drop i) = true := by
    cases hx : leadsWith "{branch}".data (((b ++ ['/']) ++ s).drop i) with
    | true => rfl
    | false => exact absurd hx hc
  rw [List.drop_append_of_le_length (Nat.le_of_lt hi)] at hlw
  by_cases hlen : ("{branch}".data).length ≤ ((b ++ ['/']).drop i).length
  · have := leadsWith_of_long "{branch}".data _ s hlw hlen
    rw [hasMatch_of_drop "{branch}".data (b ++ ['/']) i hi this] at h
    exact Bool.true_eq_false.mp h
  · have hmem := mem_pat_of_leadsWith_short "{branch}".data _ s hlw
      (Nat.le_of_lt (Nat.lt_of_not_le hlen))
    have hslash : '/' ∈ (b ++ ['/']).drop i := mem_drop_concat b '/' i hi
    have : '/' ∈ "{branch}".data := hmem '/' hslash
    simp at this

theorem render_default_eq (r b c : String)
    (h : hasMatch "{branch}".data (b.data ++ ['/']) = false) :
    PathTemplate.default.render r b c = b ++ "/" ++ c := by
  have e1 : PathTemplate.default.render r b c =
      strReplace ⟨b.data ++ "/{branch}".data⟩ "{branch}" c := rfl
  rw [e1]
  unfold strReplace
  rw [if_neg (by decide : ¬("{branch}".data = []))]
  have assoc : b.data ++ "/{branch}".data = (b.data ++ ['/']) ++ "{branch}".data := by
    show b.data ++ ('/' :: "{branch}".data) = (b.data ++ ['/']) ++ "{branch}".data
    rw [List.append_cons]
  show String.mk (replaceFuel "{branch}".data c.data
      (b.data ++ "/{branch}".data).length (b.data ++ "/{branch}".data)) = b ++ "/" ++ c
  rw [assoc]
  rw [replaceFuel_append_no_match "{branch}".data c.data (b.data ++ ['/'])
      "{branch}".data (no_start_in_base b.data "{branch}".data h)]
  have hhead : replaceFuel "{branch}".data c.data ("{branch}".data).length "{branch}".data =
      c.data := by
    have := replaceFuel_head "{branch}".data c.data [] (by decide)
    simpa [replaceFuel] using this
  rw [hhead]
  rfl

theorem strReplace_no_match (s pat rep : String) (hp : pat.data ≠ [])
    (h : hasMatch pat.data s.data = false) : strReplace s pat rep = s := by
  unfold strReplace
  rw [if_neg hp, replaceFuel_no_match pat.data rep.data s.data.length s.data h]

theorem strReplace_head (s pat rep : String) (hp : pat.data ≠ []) :
    strReplace ⟨pat.data ++ s.data⟩ pat rep = rep ++ strReplace s pat rep := by
  unfold strReplace
  rw [if_neg hp, if_neg hp]
  show String.mk (replaceFuel pat.data rep.data (pat.data ++ s.data).length
    (pat.data ++ s.data)) = _
  rw [replaceFuel_head pat.data rep.data s.data hp]
  rfl

theorem findWorktree_append_none (branch : String) :
    ∀ a l, findWorktreeForBranch a branch = none →
      findWorktreeForBranch (a ++ l) branch = findWorktreeForBranch l branch := by
  intro a
  induction a with
  | nil => intro l _; rfl
  | cons e rest ih =>
    intro l hf
    by_cases hg : e.findOk ∧ e.headBranch = some branch
    · simp [findWorktreeForBranch, hg] at hf
    · simp only [findWorktreeForBranch, if_neg hg] at hf
      simp only [List.cons_append, findWorktreeForBranch, if_neg hg]
      exact ih l hf

theorem findWorktree_created (entries : List WtEntry) (branch path : String)
    (hf : findWorktreeForBranch entries branch = none) :
    findWorktreeForBranch
      (entries ++ [⟨sanitizeWorktreeName branch, true, some branch, path, true, false, none⟩])
      branch = some path := by
  rw [findWorktree_append_none branch entries _ hf]
  simp [findWorktreeForBranch]

theorem removeGo_ok (st : RepoState) (branch : String) :
    ∀ rest acc st', removeGo st branch rest acc = .ok st' →
      ∃ e pre post,
        rest = pre ++ e :: post ∧
        e.findOk = true ∧ e.headBranch = some branch ∧ e.pruneRes = none ∧
        (∀ x ∈ pre, ¬(x.findOk = true ∧ x.headBranch = some branch)) ∧
        st'.entries = acc.reverse ++ (pre ++ post) ∧
        st'.branches =
          (if branch ∈ st.branches ∧ branch ∉ st.deleteFails
           then st.branches.filter (fun b => b ≠ branch)
           else st.branches) := by
  intro rest
  induction rest with
  | nil => intro acc st' h; simp [removeGo] at h
  | cons e rest' ih =>
    intro acc st' h
    by_cases hg : e.findOk ∧ e.headBranch = some branch
    · cases hpr : e.pruneRes with
      | some m => simp [removeGo, hg, hpr] at h
      | none =>
        simp only [removeGo, if_pos hg, hpr] at h
        rw [Except.ok.injEq] at h
        refine ⟨e, [], rest', by simp, hg.1, hg.2, hpr, by simp, ?_, ?_⟩
        · rw [← h]; simp
        · rw [← h]
    · simp only [removeGo, if_neg hg] at h
      obtain ⟨e', pre, post, hsplit, hfind, hhead, hprune, hpre, hent, hbr⟩ :=
        ih (e :: acc) st' h
      refine ⟨e', e :: pre, post, by rw [hsplit, List.cons_append], hfind, hhead, hprune, ?_, ?_, hbr⟩
      · intro x hx
        rcases List.mem_cons.mp hx with hxe | hxp
        · subst hxe; exact hg
        · exact hpre x hxp
      · rw [hent]; simp

/-! ## Claim theorems -/

/-- C1 (amended): every linked worktree record emitted by `list_worktrees`
comes from a registry entry whose worktree was findable, and its `is_locked`
field equals the success bit of the advisory-lock query
(`worktree.is_locked().is_ok()`): `true` exactly when the query succeeds,
regardless of the lock state the library reports, and `false` when the query
fails. -/
theorem list_worktrees_linked (root : String) (st : RepoState) (l : List WorktreeInfo)
    (h : list_worktrees root st = .ok l) :
    ∀ r ∈ l, r.is_main = false →
      ∃ e, e ∈ st.entries ∧ e.findOk = true ∧ r.is_locked = e.lockQueryOk ∧
        r.branch = e.headBranch.getD e.name ∧ r.path = e.path := by
  intro r hr hrm
  by_cases ho : st.openOk
  · cases hw : st.worktreesErr with
    | some m => simp [list_worktrees, ho, hw] at h
    | none =>
      simp only [list_worktrees, ho, if_true, hw] at h
      rw [Except.ok.injEq] at h
      subst h
      rcases List.mem_append.mp hr with hmain | hlink
      · exfalso
        cases hh : st.headShort with
        | none => rw [hh] at hmain; simp at hmain
        | some sh =>
          cases sh with
          | none => rw [hh] at hmain; simp at hmain
          | some nm =>
            rw [hh] at hmain
            simp only [List.mem_singleton] at hmain
            subst hmain
            simp at hrm
      · obtain ⟨e, he, heq⟩ := List.mem_filterMap.mp hlink
        refine ⟨e, he, ?_, ?_, ?_, ?_⟩ <;>
        · unfold linkedRecord at heq
          by_cases hfo : e.findOk
          · rw [if_pos hfo] at heq
            rw [Option.some.injEq] at heq
            subst heq
            simp [hfo]
          · rw [if_neg hfo] at heq; simp at heq
  · simp [list_worktrees, ho] at h

/-- C1 counterexample: a repository with one linked worktree whose lock
query succeeds reporting "unlocked" (`lockQueryOk = true`,
`lockState = false`, so the claim's formula `specLockFlag` yields `false`)
is listed with `is_locked = true`. -/
theorem list_worktrees_lock_cex :
    list_worktrees "/repo" c1State = .ok [⟨"b", "/p", false, true⟩] ∧
    unlockedEntry.lockQueryOk = true ∧ unlockedEntry.lockState = false ∧
    specLockFlag unlockedEntry = false := by decide

/-- C1 witness: the amended theorem applied to the concrete one-entry
repository state. -/
theorem list_worktrees_linked_witness :
    ∃ e, e ∈ c1State.entries ∧ e.findOk = true ∧
      (⟨"b", "/p", false, true⟩ : WorktreeInfo).is_locked = e.lockQueryOk ∧
      (⟨"b", "/p", false, true⟩ : WorktreeInfo).branch = e.headBranch.getD e.name ∧
      (⟨"b", "/p", false, true⟩ : WorktreeInfo).path = e.path :=
  list_worktrees_linked "/repo" c1State [⟨"b", "/p", false, true⟩] (by decide)
    ⟨"b", "/p", false, true⟩ (by decide) rfl

/-- C2 (amended): if `remove_worktree` succeeds, the branch delete succeeds
(`branch` not in `deleteFails`), and at most one registry entry has HEAD
short name `branch`, then afterwards no worktree in the registry has HEAD
short name `branch` and no local branch named `branch` exists.  Without the
extra hypotheses the branch may survive: the branch delete is best-effort
and its error is ignored. -/
theorem remove_worktree_amended (st st' : RepoState) (root branch : String)
    (h : remove_worktree st root branch = .ok st')
    (hdel : branch ∉ st.deleteFails)
    (huniq : (st.entries.filter (fun e => e.headBranch == some branch)).length ≤ 1) :
    (∀ e ∈ st'.entries, e.headBranch ≠ some branch) ∧ branch ∉ st'.branches := by
  by_cases ho : st.openOk
  · cases hw : st.worktreesErr with
    | some m => simp [remove_worktree, ho, hw] at h
    | none =>
      simp only [remove_worktree, ho, if_true, hw] at h
      obtain ⟨e, pre, post, hsplit, hfind, hhead, hprune, hpreskip, hent, hbr⟩ :=
        removeGo_ok st branch st.entries [] st' h
      rw [hsplit, List.filter_append, List.filter_cons] at huniq
      have hbe : ((fun x => x.headBranch == some branch) e) = true := by simp [hhead]
      rw [if_pos hbe, List.length_append, List.length_cons] at huniq
      have hpre0 : (pre.filter (fun x => x.headBranch == some branch)).length = 0 := by omega
      have hpost0 : (post.filter (fun x => x.headBranch == some branch)).length = 0 := by omega
      have hprem : ∀ x ∈ pre, ¬((fun x => x.headBranch == some branch) x = true) :=
        List.filter_eq_nil_iff.mp (List.length_eq_zero.mp hpre0)
      have hpostm : ∀ x ∈ post, ¬((fun x => x.headBranch == some branch) x = true) :=
        List.filter_eq_nil_iff.mp (List.length_eq_zero.mp hpost0)
      constructor
      · intro x hx hxb
        rw [hent] at hx
        simp only [List.reverse_nil, List.nil_append] at hx
        rcases List.mem_append.mp hx with hxp | hxq
        · exact hprem x hxp (by simp [hxb])
        · exact hpostm x hxq (by simp [hxb])
      · rw [hbr]
        by_cases hmem : branch ∈ st.branches
        · rw [if_pos ⟨hmem, hdel⟩]
          intro hc
          have := (List.mem_filter.mp hc).2
          simp at this
        · rw [if_neg (fun hc => hmem hc.1)]
          exact hmem
  · simp [remove_worktree, ho] at h

/-- C2 counterexample: with one worktree on branch `b`, local branch `b`
present, and a failing branch delete, `remove_worktree` returns success yet
the local branch `b` still exists. -/
theorem remove_worktree_branch_cex :
    remove_worktree c2FailState "/repo" "b" = .ok { c2FailState with entries := [] } ∧
    "b" ∈ ({ c2FailState with entries := [] } : RepoState).branches := by decide

/-- C2 witness: the amended theorem applied to a concrete state where the
branch delete succeeds. -/
theorem remove_worktree_amended_witness :
    (∀ e ∈ c2OkResult.entries, e.headBranch ≠ some "b") ∧ "b" ∉ c2OkResult.branches :=
  remove_worktree_amended c2OkState c2OkResult "/repo" "b" (by decide) (by decide) (by decide)

/-- C3: `ensure_worktree` is idempotent.  If a call succeeds returning the
pair `(b₁, p₁)` and post-state `st₁`, then `b₁ = branch`, a second call with
identical inputs succeeds with the equal pair `(branch, p₁)` and the
unchanged state `st₁` (no mutation), the path is discovered via the
registry (`findWorktreeForBranch`), and at most one worktree directory was
created across both calls. -/
theorem ensure_worktree_idem (st st₁ : RepoState) (root branch baseDir : String)
    (tmpl : Option String) (b₁ p₁ : String)
    (h₁ : ensure_worktree st root branch baseDir tmpl = .ok (st₁, b₁, p₁)) :
    b₁ = branch ∧
    ensure_worktree st₁ root branch baseDir tmpl = .ok (st₁, branch, p₁) ∧
    findWorktreeForBranch st₁.entries branch = some p₁ ∧
    st₁.worktreeDirs.length ≤ st.worktreeDirs.length + 1 := by
  by_cases ho : st.openOk
  · cases hw : st.worktreesErr with
    | some m => simp [ensure_worktree, ho, hw] at h₁
    | none =>
      cases hf : findWorktreeForBranch st.entries branch with
      | some p =>
        simp only [ensure_worktree, ho, if_true, hw, hf] at h₁
        rw [Except.ok.injEq, Prod.mk.injEq, Prod.mk.injEq] at h₁
        obtain ⟨hst, hb, hp⟩ := h₁
        subst hst; subst hb; subst hp
        refine ⟨rfl, ?_, hf, Nat.le_succ_of_le (Nat.le_refl _)⟩
        simp [ensure_worktree, ho, hw, hf]
      | none =>
        cases hm : st.mkdirErr with
        | some m => simp [ensure_worktree, ho, hw, hf, hm] at h₁
        | none =>
          by_cases hb : branch ∈ st.branches
          · cases ha : st.addErr with
            | some m => simp [ensure_worktree, ho, hw, hf, hm, hb, ha] at h₁
            | none =>
              simp only [ensure_worktree, ho, if_true, hw, hf, hm, if_pos hb, ha] at h₁
              rw [Except.ok.injEq, Prod.mk.injEq, Prod.mk.injEq] at h₁
              obtain ⟨hst, hbeq, hp⟩ := h₁
              subst hst; subst hbeq; subst hp
              refine ⟨rfl, ?_, ?_, ?_⟩
              · simp only [ensure_worktree, addWorktree]
                simp only [ho, if_true, hw, findWorktree_created st.entries branch _ hf]
              · exact findWorktree_created st.entries branch _ hf
              · simp [addWorktree]
          · cases hh : st.headShort with
            | none => simp [ensure_worktree, ho, hw, hf, hm, hb, hh] at h₁
            | some sh =>
              cases hp : st.peelErr with
              | some m => simp [ensure_worktree, ho, hw, hf, hm, hb, hh, hp] at h₁
              | none =>
                cases hr : st.refCreateErr with
                | some m => simp [ensure_worktree, ho, hw, hf, hm, hb, hh, hp, hr] at h₁
                | none =>
                  cases ha : st.addErr with
                  | some m => simp [ensure_worktree, ho, hw, hf, hm, hb, hh, hp, hr, ha] at h₁
                  | none =>
                    simp only [ensure_worktree, ho, if_true, hw, hf, hm, if_neg hb,
                      hh, hp, hr, ha] at h₁
                    rw [Except.ok.injEq, Prod.mk.injEq, Prod.mk.injEq] at h₁
                    obtain ⟨hst, hbeq, hpe⟩ := h₁
                    subst hst; subst hbeq; subst hpe
                    refine ⟨rfl, ?_, ?_, ?_⟩
                    · simp only [ensure_worktree, addWorktree, addBranch]
                      simp only [ho, if_true, hw, findWorktree_created st.entries branch _ hf]
                    · exact findWorktree_created st.entries branch _ hf
                    · simp [addWorktree, addBranch]
  · simp [ensure_worktree, ho] at h₁

/-- C3 witness: the theorem applied to a fresh one-branch repository and
branch `feat/x`; the first call's success is discharged by evaluation. -/
theorem ensure_worktree_idem_witness :
    "feat/x" = "feat/x" ∧
    ensure_worktree c3After "/repo" "feat/x" "/repo/.wt" none =
      .ok (c3After, "feat/x", "/repo/.wt/feat/x") ∧
    findWorktreeForBranch c3After.entries "feat/x" = some "/repo/.wt/feat/x" ∧
    c3After.worktreeDirs.length ≤ baseState.worktreeDirs.length + 1 :=
  ensure_worktree_idem baseState c3After "/repo" "feat/x" "/repo/.wt" none
    "feat/x" "/repo/.wt/feat/x" (by decide)

/-- C4 (amended): every failure of `clone_repository` is a plain generic
host error — `"Clone failed: <library message>"` for a clone failure or
`"No workdir"` for a missing working directory — not routed through the
`WorktreeError` taxonomy; its message never carries the `[GIT_ERROR]` code
token, whereas every taxonomy-converted error message does carry its
`[<CODE>]` token. -/
theorem clone_failure_shape (oc : CloneOutcome) (e : NapiError)
    (h : clone_repository_result oc = .error e) :
    e.status = "GenericFailure" ∧
    ((∃ m, e.message = "Clone failed: " ++ m) ∨ e.message = "No workdir") ∧
    msgHasCode "GIT_ERROR" e.message = false ∧
    (∀ w : WorktreeError, msgHasCode (errCode w) (worktreeErrorToNapi w).message = true) := by
  have htax : ∀ w : WorktreeError, msgHasCode (errCode w) (worktreeErrorToNapi w).message = true := by
    intro w; cases w <;> rfl
  cases hc : oc.cloneErr with
  | some m =>
    simp only [clone_repository_result, hc] at h
    rw [Except.error.injEq] at h
    subst h
    refine ⟨rfl, Or.inl ⟨m, rfl⟩, rfl, htax⟩
  | none =>
    cases hwd : oc.workdirPath with
    | none =>
      simp only [clone_repository_result, hc, hwd] at h
      rw [Except.error.injEq] at h
      subst h
      exact ⟨rfl, Or.inr rfl, by decide, htax⟩
    | some w => simp [clone_repository_result, hc, hwd] at h

/-- C4 counterexample: a clone failure with library message
`"network down"` reaches the host as `"Clone failed: network down"`, which
is not in the `"[GIT_ERROR] <message>"` format. -/
theorem clone_error_code_cex :
    clone_repository_result ⟨some "network down", none⟩ =
      .error ⟨"GenericFailure", "Clone failed: network down"⟩ ∧
    msgHasCode "GIT_ERROR" "Clone failed: network down" = false := by decide

/-- C4 witness: the amended theorem applied to a concrete failing clone
outcome. -/
theorem clone_failure_shape_witness :
    (⟨"GenericFailure", "Clone failed: x"⟩ : NapiError).status = "GenericFailure" ∧
    ((∃ m, (⟨"GenericFailure", "Clone failed: x"⟩ : NapiError).message = "Clone failed: " ++ m) ∨
      (⟨"GenericFailure", "Clone failed: x"⟩ : NapiError).message = "No workdir") ∧
    msgHasCode "GIT_ERROR" (⟨"GenericFailure", "Clone failed: x"⟩ : NapiError).message = false ∧
    (∀ w : WorktreeError, msgHasCode (errCode w) (worktreeErrorToNapi w).message = true) :=
  clone_failure_shape ⟨some "x", none⟩ ⟨"GenericFailure", "Clone failed: x"⟩ rfl

/-- C5 (amended): the clone-progress percent is `0` when `total = 0`; when
`total > 0` it is the double-precision computation
`((received as f64 / total as f64) * 100.0) as u32`, which can fall one
below `⌊100·received/total⌋`: at `received = 29`, `total = 100` the code
yields `28` while the floor is `29`. -/
theorem percent_amended :
    (∀ r, percentF64 r 0 = 0) ∧ percentF64 29 100 = 28 ∧ 100 * 29 / 100 = 29 :=
  ⟨fun _ => rfl, by decide, by decide⟩

/-- C5 counterexample: at `received = 29`, `total = 100` the code's percent
is `28`, but `⌊100·29/100⌋ = 29`. -/
theorem percent_floor_cex :
    percentF64 29 100 = 28 ∧ 100 * 29 / 100 = 29 := by decide

/-- C6: a progress tick is emitted iff at least 100 ms have elapsed since
the last emission or the tick's percent strictly exceeds the last emitted
percent; a tick satisfying neither condition is dropped with the state
unchanged, and an emission updates both the last-emission time and the
last-emitted percent. -/
theorem stepTick_spec (s : RateState) (t : TransferTick) :
    (((stepTick s t).2).isSome = true ↔
      (100 ≤ t.now - s.lastEmit ∨
        s.lastPercent < percentF64 t.receivedObjects t.totalObjects)) ∧
    (stepTick s t).1 =
      (if 100 ≤ t.now - s.lastEmit ∨
          s.lastPercent < percentF64 t.receivedObjects t.totalObjects
        then { lastEmit := t.now,
               lastPercent := percentF64 t.receivedObjects t.totalObjects }
        else s) := by
  by_cases hc : 100 ≤ t.now - s.lastEmit ∨
      s.lastPercent < percentF64 t.receivedObjects t.totalObjects
  · constructor
    · simp [stepTick, hc]
    · simp [stepTick, hc]
  · constructor
    · simp [stepTick, hc]
    · simp [stepTick, hc]

/-- C7: `ensure_repo_ready` returns `InvalidPath` exactly when the root
does not exist, `NotAGitRepo` exactly when it exists but cannot be opened,
`is_git_repo = true` on every success, and `default_branch = none` (not an
error) in both the detached-HEAD and unborn-HEAD cases (library HEAD query
modelled from the spec by `headQuery`). -/
theorem ensure_repo_ready_spec (root : String) (st : RepoState) :
    ((∃ m, ensure_repo_ready root st = .error (.invalidPath m)) ↔ st.pathExists = false) ∧
    ((∃ m, ensure_repo_ready root st = .error (.notAGitRepo m)) ↔
      (st.pathExists = true ∧ st.openOk = false)) ∧
    (∀ r, ensure_repo_ready root st = .ok r → r.1 = true) ∧
    (st.pathExists = true → st.openOk = true → st.headShort = headQuery .detached →
      ensure_repo_ready root st = .ok (true, none)) ∧
    (st.pathExists = true → st.openOk = true → st.headShort = headQuery .unborn →
      ensure_repo_ready root st = .ok (true, none)) := by
  by_cases hp : st.pathExists
  · by_cases ho : st.openOk
    · refine ⟨?_, ?_, ?_, ?_, ?_⟩
      · constructor
        · rintro ⟨m, hm⟩
          simp [ensure_repo_ready, hp, ho] at hm
        · intro hc; rw [hp] at hc; exact absurd hc (by simp)
      · constructor
        · rintro ⟨m, hm⟩
          simp [ensure_repo_ready, hp, ho] at hm
        · rintro ⟨-, hc⟩; rw [ho] at hc; exact absurd hc (by simp)
      · intro r hr
        simp only [ensure_repo_ready, hp, ho, if_true] at hr
        rw [Except.ok.injEq] at hr
        rw [← hr]
      · intro _ _ hh
        simp [ensure_repo_ready, hp, ho, hh, headQuery]
      · intro _ _ hh
        simp [ensure_repo_ready, hp, ho, hh, headQuery]
    · refine ⟨?_, ?_, ?_, ?_, ?_⟩
      · constructor
        · rintro ⟨m, hm⟩
          simp [ensure_repo_ready, hp, ho] at hm
        · intro hc; rw [hp] at hc; exact absurd hc (by simp)
      · constructor
        · intro _; exact ⟨hp, by simpa using ho⟩
        · intro _
          exact ⟨"Not a git repository: " ++ root, by simp [ensure_repo_ready, hp, ho]⟩
      · intro r hr; simp [ensure_repo_ready, hp, ho] at hr
      · intro _ hc; rw [hc] at ho; exact absurd rfl ho
      · intro _ hc; rw [hc] at ho; exact absurd rfl ho
  · refine ⟨?_, ?_, ?_, ?_, ?_⟩
    · constructor
      · intro _; simpa using hp
      · intro _
        exact ⟨"Path does not exist: " ++ root, by simp [ensure_repo_ready, hp]⟩
    · constructor
      · rintro ⟨m, hm⟩
        simp [ensure_repo_ready, hp] at hm
      · rintro ⟨hc, -⟩; exact absurd hc hp
    · intro r hr; simp [ensure_repo_ready, hp] at hr
    · intro hc; exact absurd hc hp
    · intro hc; exact absurd hc hp

/-- C7 witness: the theorem's detached-HEAD conjunct applied to a concrete
open repository in the detached-HEAD state. -/
theorem ensure_repo_ready_spec_witness :
    ensure_repo_ready "/repo" c7Detached = .ok (true, none) :=
  (ensure_repo_ready_spec "/repo" c7Detached).2.2.2.1 rfl rfl rfl

/-- C8 (amended): `render` substitutes textually and sequentially: text
free of a placeholder survives that substitution unchanged (so unknown
placeholders are left as literal text), an occurrence is replaced by the
value verbatim with the scan resuming after it, and the default template
renders to `<base_dir>/<branch>` verbatim provided `base_dir ++ "/"`
contains no occurrence of `"{branch}"` — because the substitutions are
sequential, values may inject placeholder text consumed by a later
substitution. -/
theorem render_textual_substitution :
    (∀ s pat rep : String, pat.data ≠ [] → hasMatch pat.data s.data = false →
      strReplace s pat rep = s) ∧
    (∀ s pat rep : String, pat.data ≠ [] →
      strReplace ⟨pat.data ++ s.data⟩ pat rep = rep ++ strReplace s pat rep) ∧
    (∀ r b c : String, hasMatch "{branch}".data (b.data ++ ['/']) = false →
      PathTemplate.default.render r b c = b ++ "/" ++ c) :=
  ⟨strReplace_no_match, strReplace_head, render_default_eq⟩

/-- C8 counterexample: with the default template, `base_dir = "{branch}"`
and `branch = "B"`, `render` yields `"B/B"`, not the claimed
`<base_dir>/<branch> = "{branch}/B"`: the `{branch}` text injected by the
base-directory value is consumed by the later substitution. -/
theorem render_default_cex :
    PathTemplate.default.render "" "{branch}" "B" = "B/B" ∧
    ("B/B" : String) ≠ "{branch}" ++ "/" ++ "B" := by decide

/-- C8 witness: the default-template conjunct applied at a concrete
placeholder-free base directory. -/
theorem render_textual_substitution_witness :
    PathTemplate.default.render "/repo" "/repo/.wt" "feat/x" = "/repo/.wt" ++ "/" ++ "feat/x" :=
  render_textual_substitution.2.2 "/repo" "/repo/.wt" "feat/x" (by decide)

/-- C9 (amended): the host-facing `ensure_repo_ready` result consists of
exactly three components — `is_git_repo`, `default_branch` and
`remote_url` — and is not determined by the two components
`(is_git_repo, default_branch)` alone. -/
theorem ensureRepoReadyResult_three_components :
    Function.Injective (fun r : EnsureRepoReadyResult =>
      (r.is_git_repo, r.default_branch, r.remote_url)) ∧
    ¬ Function.Injective (fun r : EnsureRepoReadyResult =>
      (r.is_git_repo, r.default_branch)) := by
  constructor
  · intro a b hab
    cases a; cases b
    simp only [Prod.mk.injEq] at hab
    simp [hab.1, hab.2.1, hab.2.2]
  · intro hc
    have := @hc ⟨true, none, none⟩ ⟨true, none, some "u"⟩ rfl
    simp at this

/-- C9 counterexample: two distinct result records agree on `is_git_repo`
and `default_branch` and differ only in the third field `remote_url`, so
the result does not consist of exactly those two components. -/
theorem ensureRepoReadyResult_pair_cex :
    (⟨true, none, none⟩ : EnsureRepoReadyResult).is_git_repo =
      (⟨true, none, some "https URL"⟩ : EnsureRepoReadyResult).is_git_repo ∧
    (⟨true, none, none⟩ : EnsureRepoReadyResult).default_branch =
      (⟨true, none, some "https URL"⟩ : EnsureRepoReadyResult).default_branch ∧
    (⟨true, none, none⟩ : EnsureRepoReadyResult) ≠
      (⟨true, none, some "https URL"⟩ : EnsureRepoReadyResult) := by decide

/-- C10: in every list returned by `list_worktrees`, a main-worktree record
(`is_main = true`) has `is_locked = false`; the main worktree's lock state
is never queried. -/
theorem list_worktrees_main_unlocked (root : String) (st : RepoState)
    (l : List WorktreeInfo) (h : list_worktrees root st = .ok l) :
    ∀ r ∈ l, r.is_main = true → r.is_locked = false := by
  intro r hr hrm
  by_cases ho : st.openOk
  · cases hw : st.worktreesErr with
    | some m => simp [list_worktrees, ho, hw] at h
    | none =>
      simp only [list_worktrees, ho, if_true, hw] at h
      rw [Except.ok.injEq] at h
      subst h
      rcases List.mem_append.mp hr with hmain | hlink
      · cases hh : st.headShort with
        | none => rw [hh] at hmain; simp at hmain
        | some sh =>
          cases sh with
          | none => rw [hh] at hmain; simp at hmain
          | some nm =>
            rw [hh] at hmain
            simp only [List.mem_singleton] at hmain
            subst hmain
            rfl
      · exfalso
        obtain ⟨e, he, heq⟩ := List.mem_filterMap.mp hlink
        unfold linkedRecord at heq
        by_cases hfo : e.findOk
        · rw [if_pos hfo] at heq
          rw [Option.some.injEq] at heq
          subst heq
          simp at hrm
        · rw [if_neg hfo] at heq; simp at heq
  · simp [list_worktrees, ho] at h

/-- C10 witness: the theorem applied to a concrete repository whose HEAD
resolves to `main`. -/
theorem main_unlocked_witness :
    (⟨"main", "/repo", true, false⟩ : WorktreeInfo).is_locked = false :=
  list_worktrees_main_unlocked "/repo" baseState [⟨"main", "/repo", true, false⟩]
    (by decide) ⟨"main", "/repo", true, false⟩ (by decide) rfl
